import Mathlib

/-
Verification of the thermite repository (dollarshaveclub/thermite): a shallow
embedding of the prune engine (package prune) and the cluster image surveyor
(package census), with theorems settling the specification claims.

Modelling conventions:
  * Go pointers (`*string`, `*time.Time`) become `Option _`; a nil pointer is
    `none`, and a Go nil-pointer dereference is modelled as the distinguished
    outcome `Outcome.panic`.
  * Instants are integers measured in nanoseconds (Go `time.Time` /
    `time.Duration` use int64 nanoseconds); `time.Duration` multiplication
    overflows by wrapping at 64 bits, modelled by `wrap64`.
  * The registry (Amazon ECR) is modelled as oracle data: repositories,
    resource tags keyed by ARN, image details keyed by repository name, and a
    batch-delete behaviour giving, for each successive call, the output id
    list (or `none` for a nil output pointer) and an error flag.  Pagination
    concatenates pages in order, so listings appear as single lists.
  * Side effects (logging, statsd, tracing spans) are ignored; registry API
    calls are recorded in an `ApiCall` trace.
-/

namespace Thermite

/-- Resource tag attached to an ECR repository (`ecr.Tag`): both fields are
`*string` in Go. -/
structure Tag where
  key : Option String
  value : Option String
deriving DecidableEq, Repr

/-- One pushed image in a repository (`ecr.ImageDetail`): `ImagePushedAt` is a
`*time.Time` (nanoseconds), `ImageTags` a slice of `*string`. -/
structure ImageDetail where
  imagePushedAt : Option Int
  imageTags : List (Option String)
deriving DecidableEq, Repr

/-- Repository identity (`ecr.Repository`): ARN, name and URI. -/
structure Repo where
  arn : String
  name : String
  uri : String
deriving DecidableEq, Repr

/-- Error sites of the prune engine, one constructor per distinct `error`
value the Go code can return (messages kept in comments). -/
inductive GoErr where
  /-- Go message: zero images excluded from prune. -/
  | zeroImagesExcluded
  /-- Go message: error describing repository / no repositories found. -/
  | noRepositories
  /-- Go message: error listing tags (ARN not found). -/
  | listTags
  /-- Sentinel `ErrNoPrunePeriodTag`: no valid prune period tag for repository. -/
  | noPrunePeriodTag
  /-- Go message: error describing images in repository. -/
  | describeImages
  /-- Go message: found unexpected nil image pushed at time. -/
  | nilPushedAt
  /-- Go message: imageID.ImageTag must not be nil. -/
  | nilImageTag
  /-- Go message: error deleting images (BatchDeleteImage failed). -/
  | batchDelete
deriving DecidableEq, Repr

/-- Result of one engine entry point: Go returns `(pruned []string, err)`, and
can also crash on a nil dereference, modelled by `panic`. -/
inductive Outcome where
  | ok (pruned : List String)
  | err (pruned : List String) (e : GoErr)
  | panic
deriving DecidableEq, Repr

/-- Pruned-reference list returned alongside the outcome (`nil` slices and a
crash give the empty list). -/
def Outcome.prunedList : Outcome → List String
  | .ok l => l
  | .err l _ => l
  | .panic => []

/-- Registry API calls issued by the engine, in order; a batch delete records
the size of the batch it was given. -/
inductive ApiCall where
  | describeRepositories
  | listTagsForResource
  | describeImages
  | batchDeleteImage (batchSize : Nat)
deriving DecidableEq, Repr

/-- Oracle model of the ECR registry seen by one engine run.  `batchDelete`
gives, for the i-th BatchDeleteImage call (0-based) on a given tag batch, the
`ImageIds` of the output (`none` models a nil output pointer) and whether the
call also returned an error. -/
structure Registry where
  repositories : List Repo
  tagsByARN : List (String × List Tag)
  imagesByName : List (String × List ImageDetail)
  batchDelete : Nat → List String → Option (List (Option String)) × Bool

/-- Engine configuration assembled by `prune.NewClient` from its options. -/
structure Config where
  periodTagKey : String
  removeImages : Bool
  allowZeroExclusions : Bool
deriving DecidableEq, Repr

/-- Default period tag key `prune.DefaultPeriodTagKey`. -/
def defaultPeriodTagKey : String := "thermite:prune-period"

/-! ### strconv.ParseUint and the int conversion -/

/-- Value of a decimal digit character, `none` for any other character. -/
def digitVal? (c : Char) : Option Nat :=
  if c.isDigit then some (c.toNat - 48) else none

/-- Accumulating base-10 parse over the characters of the input. -/
def parseUintCore : List Char → Nat → Option Nat
  | [], acc => some acc
  | c :: cs, acc =>
    match digitVal? c with
    | none => none
    | some d => parseUintCore cs (acc * 10 + d)

/-- Model of `strconv.ParseUint(s, 10, 0)` on a 64-bit platform: digits only
(no sign), nonempty, value below 2^64; out-of-range input is an error (Go
returns ErrRange, which the caller treats like any parse failure). -/
def parseUint64 (s : String) : Option Nat :=
  if s.data.isEmpty then none
  else
    match parseUintCore s.data 0 with
    | none => none
    | some n => if n < 2 ^ 64 then some n else none

/-- Model of Go's `int(u)` conversion from `uint64` on a 64-bit platform:
two's-complement reinterpretation. -/
def int64OfUInt64 (n : Nat) : Int :=
  if n < 2 ^ 63 then (n : Int) else (n : Int) - 2 ^ 64

/-- Wrap of a 64-bit signed integer computation (`time.Duration` arithmetic
overflows by wrapping). -/
def wrap64 (x : Int) : Int :=
  (x + 2 ^ 63) % 2 ^ 64 - 2 ^ 63

/-- Nanoseconds in `time.Hour`. -/
def nsPerHour : Int := 3600000000000

/-- Nanoseconds in 24 hours. -/
def nsPerDay : Int := 24 * nsPerHour

/-! ### repoPrunePeriodFromARN -/

/-- Tag-scanning loop of `Client.repoPrunePeriodFromARN`.  The state is the
`(period, ok)` pair accumulated so far; a matching tag whose value is nil,
unparseable or zero breaks out of the loop (returning the state so far), and a
matching tag with a valid nonzero value overwrites the state and continues. -/
def prunePeriodLoop (key : String) : List Tag → Int × Bool → Int × Bool
  | [], st => st
  | t :: rest, st =>
    if t.key = some key then
      match t.value with
      | none => st
      | some v =>
        match parseUint64 v with
        | none => st
        | some n =>
          if n = 0 then st
          else prunePeriodLoop key rest (int64OfUInt64 n, true)
    else prunePeriodLoop key rest st

/-- Model of `Client.repoPrunePeriodFromARN` after the tags have been fetched:
returns `(period, hasPolicy)`. -/
def prunePeriodFromTags (key : String) (tags : List Tag) : Int × Bool :=
  prunePeriodLoop key tags (0, false)

/-! ### PruneRepo helpers -/

/-- Model of `Client.repoFromName`: DescribeRepositories filtered by the one
name, first result, error when none is found. -/
def repoFromName (reg : Registry) (name : String) : Except GoErr Repo :=
  match reg.repositories.filter (fun r => r.name = name) with
  | [] => .error .noRepositories
  | r :: _ => .ok r

/-- Most-recent-image tracking from the DescribeImages page callback: keeps the
first detail whose push time is strictly greater than every earlier one
(`ImagePushedAt.After`, strict, first seen wins on ties).  For any detail other
than the first, Go dereferences both push-time pointers, so a nil pointer on
either side is a crash (`.error ()`). -/
def mostRecentFold : List ImageDetail → Option ImageDetail → Except Unit (Option ImageDetail)
  | [], cur => .ok cur
  | d :: rest, cur =>
    match cur with
    | none => mostRecentFold rest (some d)
    | some m =>
      match d.imagePushedAt, m.imagePushedAt with
      | some td, some tm => mostRecentFold rest (if td > tm then some d else some m)
      | _, _ => .error ()

/-- Model of `repoImageRefsFromURIAndImageIDs`: forms `uri:tag` references,
failing on a nil tag. -/
def imageRefs (uri : String) : List (Option String) → Except GoErr (List String)
  | [] => .ok []
  | none :: _ => .error .nilImageTag
  | some t :: rest =>
    match imageRefs uri rest with
    | .error e => .error e
    | .ok rs => .ok ((uri ++ ":" ++ t) :: rs)

/-- References of the most recent image detail (if any), to be appended to the
exclusions before the whitelist is built; a nil tag on the most recent detail
is an error, as in `repoImageRefsFromURIAndImageIDs`. -/
def mostRecentRefs (uri : String) : Option ImageDetail → Except GoErr (List String)
  | none => .ok []
  | some d => imageRefs uri d.imageTags

/-- Per-detail tag loop of `Client.PruneRepo` (the body under the `excluded:`
label): walks the detail's tags in order, fails on a nil tag, stops at the
first whitelisted reference (Go `continue excluded`, abandoning the remaining
tags of the same detail but keeping earlier ones), and collects every other
tag as pruneable. -/
def detailTags (wl : List String) (uri : String) : List (Option String) → Except GoErr (List String)
  | [] => .ok []
  | none :: _ => .error .nilImageTag
  | some t :: rest =>
    if (uri ++ ":" ++ t) ∈ wl then .ok []
    else
      match detailTags wl uri rest with
      | .error e => .error e
      | .ok ts => .ok (t :: ts)

/-- Classification loop of `Client.PruneRepo`: a detail with a nil push time is
a data-integrity error; a detail pushed strictly after the cutoff is a
survivor and is skipped; otherwise its tags are classified by `detailTags`. -/
def classify (wl : List String) (uri : String) (cutoff : Int) :
    List ImageDetail → Except GoErr (List String)
  | [] => .ok []
  | d :: rest =>
    match d.imagePushedAt with
    | none => .error .nilPushedAt
    | some t =>
      if t > cutoff then classify wl uri cutoff rest
      else
        match detailTags wl uri d.imageTags with
        | .error e => .error e
        | .ok ts =>
          match classify wl uri cutoff rest with
          | .error e => .error e
          | .ok rs => .ok (ts ++ rs)

/-- Deletion loop of `Client.PruneRepo`: takes batches of at most 100 tags,
issues one BatchDeleteImage per batch, dereferences the output before looking
at the error (a nil output is a crash), appends the references of the ids the
output reports deleted, and stops with the accumulated references when a call
also reported an error. -/
def batchLoopAux (reg : Registry) (uri : String) :
    Nat → Nat → List String → List String → List ApiCall → Outcome × List ApiCall
  | _, _, [], acc, tr => (.ok acc, tr)
  | 0, _, _ :: _, acc, tr => (.ok acc, tr)
  | fuel + 1, idx, s :: rest0, acc, tr =>
    let batch := (s :: rest0).take 100
    let rest := (s :: rest0).drop 100
    let resp := reg.batchDelete idx batch
    let tr1 := tr ++ [.batchDeleteImage batch.length]
    match resp.1 with
    | none => (.panic, tr1)
    | some out =>
      match imageRefs uri out with
      | .error e => (.err acc e, tr1)
      | .ok refs =>
        if resp.2 then (.err (acc ++ refs) .batchDelete, tr1)
        else batchLoopAux reg uri fuel (idx + 1) rest (acc ++ refs) tr1

/-- Entry point of the deletion loop.  The fuel argument of `batchLoopAux`
starts at the length of the pruneable list; every iteration removes at least
one element and burns one unit, so the fuel-exhausted branch (which mirrors
the empty case) is never reached and the recursion is exactly the Go loop. -/
def batchLoop (reg : Registry) (uri : String) (idx : Nat) (remaining : List String)
    (acc : List String) (tr : List ApiCall) : Outcome × List ApiCall :=
  batchLoopAux reg uri remaining.length idx remaining acc tr

/-- Model of `Client.PruneRepo`, returning the Go result together with the
trace of registry API calls made.  Stages, in source order: the
zero-exclusions guard, repoFromName, repoPrunePeriodFromARN,
DescribeImagesPages with most-recent tracking, whitelist construction, the
classification loop, then either the dry-run report or the deletion loop. -/
def pruneRepo (cfg : Config) (reg : Registry) (name : String) (untilT : Int)
    (excluded : List String) : Outcome × List ApiCall :=
  if excluded.isEmpty ∧ ¬cfg.allowZeroExclusions then
    (.err [] .zeroImagesExcluded, [])
  else
    match repoFromName reg name with
    | .error e => (.err [] e, [.describeRepositories])
    | .ok repo =>
      match reg.tagsByARN.lookup repo.arn with
      | none => (.err [] .listTags, [.describeRepositories, .listTagsForResource])
      | some tags =>
        let pp := prunePeriodFromTags cfg.periodTagKey tags
        if ¬pp.2 then
          (.err [] .noPrunePeriodTag, [.describeRepositories, .listTagsForResource])
        else
          match reg.imagesByName.lookup name with
          | none =>
            (.err [] .describeImages,
              [.describeRepositories, .listTagsForResource, .describeImages])
          | some images =>
            let tr := [ApiCall.describeRepositories, .listTagsForResource, .describeImages]
            match mostRecentFold images none with
            | .error _ => (.panic, tr)
            | .ok mr =>
              match mostRecentRefs repo.uri mr with
              | .error e => (.err [] e, tr)
              | .ok mrRefs =>
                let wl := excluded ++ mrRefs
                let cutoff := untilT - wrap64 (pp.1 * nsPerDay)
                match classify wl repo.uri cutoff images with
                | .error e => (.err [] e, tr)
                | .ok ts =>
                  if ¬cfg.removeImages then
                    (.ok (ts.map (fun s => repo.uri ++ ":" ++ s)), tr)
                  else batchLoop reg repo.uri 0 ts [] tr

/-- Repository loop of `Client.PruneAllRepos`: the partial references of every
`PruneRepo` call are accumulated before the error check; the sentinel
`ErrNoPrunePeriodTag` is skipped, any other error aborts the sweep with the
references accumulated so far, and a crash propagates. -/
def pruneAllLoop (cfg : Config) (reg : Registry) (untilT : Int) (excluded : List String) :
    List Repo → List String → Outcome
  | [], acc => .ok acc
  | r :: rest, acc =>
    match (pruneRepo cfg reg r.name untilT excluded).1 with
    | .panic => .panic
    | .ok p => pruneAllLoop cfg reg untilT excluded rest (acc ++ p)
    | .err p e =>
      if e = .noPrunePeriodTag then pruneAllLoop cfg reg untilT excluded rest (acc ++ p)
      else .err (acc ++ p) e

/-- Model of `Client.PruneAllRepos`: describes every repository, then runs the
repository loop in listing order starting from the empty accumulator. -/
def pruneAllRepos (cfg : Config) (reg : Registry) (untilT : Int)
    (excluded : List String) : Outcome :=
  pruneAllLoop cfg reg untilT excluded reg.repositories []

/-! ### census.Client.SurveyDeployedImages -/

/-- Pod template of one surveyed workload resource: the image references of its
containers and init containers (`census.PodSpecLister.GetPodSpec`). -/
structure PodSpec where
  containers : List String
  initContainers : List String
deriving DecidableEq, Repr

/-- Image references contributed by the surveyed workloads, in survey order:
`append(spec.Containers, spec.InitContainers...)` for each resource. -/
def allImages (specs : List PodSpec) : List String :=
  specs.flatMap fun s => s.containers ++ s.initContainers

/-- Insertion into a strictly sorted list, keeping it strictly sorted and
duplicate-free: together with the fold below this models the Go set
(`map[string]interface{}` keys) followed by `sort.Sort(sort.StringSlice(..))`. -/
def insertImage (x : String) : List String → List String
  | [] => [x]
  | y :: ys =>
    if x = y then y :: ys
    else if x < y then x :: y :: ys
    else y :: insertImage x ys

/-- Model of `census.Client.SurveyDeployedImages` on the pod specs gathered
from every configured lister (pagination concatenates, extraction errors
abort the survey and return no list): the deduplicated image set, sorted
ascending. -/
def surveyDeployedImages (specs : List PodSpec) : List String :=
  (allImages specs).foldl (fun acc i => insertImage i acc) []

/-! ### Concrete scenarios used by the theorems below -/

/-- Batch-delete behaviour of the package's own test mock on the success path:
echo the requested ids back as deleted, no error. -/
def echoDelete : Nat → List String → Option (List (Option String)) × Bool :=
  fun _ b => (some (b.map some), false)

/-- Dry-run configuration: default tag key, no removal, exclusions required. -/
def dryCfg : Config := ⟨defaultPeriodTagKey, false, false⟩

/-- Remove-mode configuration: default tag key, removal on, exclusions required. -/
def removeCfg : Config := ⟨defaultPeriodTagKey, true, false⟩

/-- Dry-run configuration with `WithAllowZeroExclusions`. -/
def dryZeroCfg : Config := ⟨defaultPeriodTagKey, false, true⟩

/-- Remove-mode configuration with `WithAllowZeroExclusions`. -/
def removeZeroCfg : Config := ⟨defaultPeriodTagKey, true, true⟩

/-- Repository tag carrying a prune period value under the default key. -/
def periodTag (v : String) : Tag := ⟨some defaultPeriodTagKey, some v⟩

/-- Single repository named `r` with URI `u` used by the one-repository
scenarios. -/
def oneRepo : Repo := ⟨"arnB", "r", "u"⟩

/-- One-repository registry with the given resource tags and two images: tag
`m` pushed at `tm` and tag `b` pushed at `tb`. -/
def twoImageReg (tags : List Tag) (tb tm : Int) : Registry :=
  { repositories := [oneRepo]
  , tagsByARN := [("arnB", tags)]
  , imagesByName := [("r", [⟨some tm, [some "m"]⟩, ⟨some tb, [some "b"]⟩])]
  , batchDelete := echoDelete }

/-- Registry for the whitelist-position scenario: the second image detail is
eligible and carries two tags `a` and `w`, in that order. -/
def tagOrderReg : Registry :=
  { repositories := [oneRepo]
  , tagsByARN := [("arnB", [periodTag "30"])]
  , imagesByName := [("r",
      [⟨some 0, [some "m"]⟩, ⟨some (-(40 * nsPerDay)), [some "a", some "w"]⟩])]
  , batchDelete := echoDelete }

/-- Registry whose listing has a nil push timestamp in second position. -/
def nilTimeSecondReg : Registry :=
  { repositories := [oneRepo]
  , tagsByARN := [("arnB", [periodTag "30"])]
  , imagesByName := [("r", [⟨some 0, [some "a"]⟩, ⟨none, [some "b"]⟩])]
  , batchDelete := echoDelete }

/-- Registry whose only image detail has a nil push timestamp. -/
def nilTimeOnlyReg : Registry :=
  { repositories := [oneRepo]
  , tagsByARN := [("arnB", [periodTag "30"])]
  , imagesByName := [("r", [⟨none, [some "a"]⟩])]
  , batchDelete := echoDelete }

/-- Registry whose prune period tag value is the largest uint64. -/
def hugePeriodReg : Registry :=
  { repositories := [oneRepo]
  , tagsByARN := [("arnB", [periodTag "18446744073709551615"])]
  , imagesByName := [("r",
      [⟨some 0, [some "m"]⟩, ⟨some (-1), [some "b"]⟩, ⟨some (-2), [some "c"]⟩])]
  , batchDelete := echoDelete }

/-- Two-repository registry whose second repository fails its batch delete but
still reports the batch as deleted in the output (a Go API may return both an
output and an error). -/
def sweepAbortReg : Registry :=
  { repositories := [⟨"arn1", "r1", "u1"⟩, ⟨"arn2", "r2", "u2"⟩]
  , tagsByARN := [("arn1", [periodTag "30"]), ("arn2", [periodTag "30"])]
  , imagesByName :=
      [ ("r1", [⟨some 0, [some "m1"]⟩, ⟨some (-(40 * nsPerDay)), [some "a1"]⟩])
      , ("r2", [⟨some 0, [some "m2"]⟩, ⟨some (-(40 * nsPerDay)), [some "b1"]⟩]) ]
  , batchDelete := fun _ b => (some (b.map some), b.contains "b1") }

/-- Listing of 251 image details: the most recent (tag `t0`, pushed at 0) and
250 details pushed before the one-day cutoff, tags `t1` … `t250`. -/
def manyImages : List ImageDetail :=
  ⟨some 0, [some "t0"]⟩ ::
    (List.range 250).map (fun i =>
      ⟨some (-(nsPerDay + Int.ofNat (i + 1))), [some ("t" ++ Nat.repr (i + 1))]⟩)

/-- Registry with 250 prune-eligible images and a period of one day, every
batch delete succeeding. -/
def manyOkReg : Registry :=
  { repositories := [oneRepo]
  , tagsByARN := [("arnB", [periodTag "1"])]
  , imagesByName := [("r", manyImages)]
  , batchDelete := echoDelete }

/-- Same listing, but the second batch-delete call fails returning a nil
output (the AWS SDK convention, and what the package's test mock does on every
error path). -/
def manyFailReg : Registry :=
  { repositories := [oneRepo]
  , tagsByARN := [("arnB", [periodTag "1"])]
  , imagesByName := [("r", manyImages)]
  , batchDelete := fun idx b =>
      if idx = 1 then (none, true) else (some (b.map some), false) }

/-! ### Theorems -/

/-- Positivity of the hour constant. -/
theorem nsPerHour_pos : (0 : Int) < nsPerHour := by norm_num [nsPerHour]

/-- Positivity of the day constant. -/
theorem nsPerDay_pos : (0 : Int) < nsPerDay := by norm_num [nsPerDay, nsPerHour]

/-- The 64-bit wrap is the identity inside the representable range. -/
theorem wrap64_eq_self {x : Int} (h0 : -(2 ^ 63) ≤ x) (h1 : x < 2 ^ 63) :
    wrap64 x = x := by
  unfold wrap64
  rw [Int.emod_eq_of_lt (by linarith) (by norm_num at h1 ⊢; linarith)]
  ring

/-- Evaluation of `pruneRepo` through its stages in dry-run mode, given the
outcome of every stage. -/
theorem pruneRepo_dry_eval (cfg : Config) (reg : Registry) (name : String)
    (untilT : Int) (excluded : List String) (repo : Repo) (tags : List Tag)
    (images : List ImageDetail) (mr : Option ImageDetail) (mrRefs ts : List String)
    (hne : excluded.isEmpty = false)
    (hrepo : repoFromName reg name = .ok repo)
    (htags : reg.tagsByARN.lookup repo.arn = some tags)
    (hpp : (prunePeriodFromTags cfg.periodTagKey tags).2 = true)
    (himgs : reg.imagesByName.lookup name = some images)
    (hmr : mostRecentFold images none = .ok mr)
    (hrefs : mostRecentRefs repo.uri mr = .ok mrRefs)
    (hcls : classify (excluded ++ mrRefs) repo.uri
        (untilT - wrap64 ((prunePeriodFromTags cfg.periodTagKey tags).1 * nsPerDay))
        images = .ok ts)
    (hdry : cfg.removeImages = false) :
    pruneRepo cfg reg name untilT excluded =
      (.ok (ts.map (fun s => repo.uri ++ ":" ++ s)),
       [.describeRepositories, .listTagsForResource, .describeImages]) := by
  unfold pruneRepo
  rw [hrepo]
  simp [hne, htags, hpp, himgs, hmr, hrefs, hcls, hdry]

/-- Evaluation of `pruneRepo` through its stages in remove mode: the result is
the deletion loop on the classification result. -/
theorem pruneRepo_remove_eval (cfg : Config) (reg : Registry) (name : String)
    (untilT : Int) (excluded : List String) (repo : Repo) (tags : List Tag)
    (images : List ImageDetail) (mr : Option ImageDetail) (mrRefs ts : List String)
    (hne : excluded.isEmpty = false)
    (hrepo : repoFromName reg name = .ok repo)
    (htags : reg.tagsByARN.lookup repo.arn = some tags)
    (hpp : (prunePeriodFromTags cfg.periodTagKey tags).2 = true)
    (himgs : reg.imagesByName.lookup name = some images)
    (hmr : mostRecentFold images none = .ok mr)
    (hrefs : mostRecentRefs repo.uri mr = .ok mrRefs)
    (hcls : classify (excluded ++ mrRefs) repo.uri
        (untilT - wrap64 ((prunePeriodFromTags cfg.periodTagKey tags).1 * nsPerDay))
        images = .ok ts)
    (hrem : cfg.removeImages = true) :
    pruneRepo cfg reg name untilT excluded =
      batchLoop reg repo.uri 0 ts []
        [.describeRepositories, .listTagsForResource, .describeImages] := by
  unfold pruneRepo
  rw [hrepo]
  simp [hne, htags, hpp, himgs, hmr, hrefs, hcls, hrem]

/-- C4: if PruneRepo is called with an empty excluded list on a client not
configured to allow zero exclusions, it fails immediately with the explicit
"zero images excluded from prune" error, returns an empty pruned list, and the
registry API call trace is empty (no API call is made). -/
theorem C4_zero_exclusions_guard (cfg : Config) (reg : Registry) (name : String)
    (untilT : Int) (h : cfg.allowZeroExclusions = false) :
    pruneRepo cfg reg name untilT [] = (.err [] .zeroImagesExcluded, []) := by
  simp [pruneRepo, h]

/-- Witness for C4 at a concrete configuration and registry. -/
theorem C4_zero_exclusions_guard_witness :
    pruneRepo dryCfg nilTimeOnlyReg "r" 0 [] = (.err [] .zeroImagesExcluded, []) :=
  C4_zero_exclusions_guard dryCfg nilTimeOnlyReg "r" 0 rfl

/-- C8, counterexample: a matching tag whose value does not parse makes the
scan break out of the loop rather than continue over the remaining tags, so a
later valid tag value `"30"` is never reached and no policy is found — the
claim would require `(30, true)`. -/
theorem C8_invalid_then_valid_cex :
    prunePeriodFromTags defaultPeriodTagKey
        [⟨some defaultPeriodTagKey, some "x"⟩, ⟨some defaultPeriodTagKey, some "30"⟩] =
      (0, false) ∧
    prunePeriodFromTags defaultPeriodTagKey
        [⟨some defaultPeriodTagKey, some "x"⟩, ⟨some defaultPeriodTagKey, some "30"⟩] ≠
      (30, true) := by
  constructor <;> decide

/-- C8, amended: scanning a tag whose key differs from the policy key
continues; a matching tag with a missing, unparseable, or zero value stops the
scan immediately, keeping whatever state (period, hasPolicy) was accumulated
so far; a matching tag with a valid nonzero value overwrites the state and
continues, so among consecutive valid matches the last one wins. -/
theorem C8_period_scan_amended (key : String) (t : Tag) (rest : List Tag)
    (st : Int × Bool) :
    (t.key ≠ some key →
      prunePeriodLoop key (t :: rest) st = prunePeriodLoop key rest st) ∧
    (t.key = some key → t.value = none →
      prunePeriodLoop key (t :: rest) st = st) ∧
    (∀ v, t.key = some key → t.value = some v → parseUint64 v = none →
      prunePeriodLoop key (t :: rest) st = st) ∧
    (∀ v, t.key = some key → t.value = some v → parseUint64 v = some 0 →
      prunePeriodLoop key (t :: rest) st = st) ∧
    (∀ v n, t.key = some key → t.value = some v → parseUint64 v = some n →
      n ≠ 0 →
      prunePeriodLoop key (t :: rest) st =
        prunePeriodLoop key rest (int64OfUInt64 n, true)) := by
  refine ⟨?_, ?_, ?_, ?_, ?_⟩
  · intro hk
    simp [prunePeriodLoop, hk]
  · intro hk hv
    simp [prunePeriodLoop, hk, hv]
  · intro v hk hv hp
    simp [prunePeriodLoop, hk, hv, hp]
  · intro v hk hv hp
    simp [prunePeriodLoop, hk, hv, hp]
  · intro v n hk hv hp hn
    simp [prunePeriodLoop, hk, hv, hp, hn]

/-- Witness for C8's amended theorem: a matching tag with value `"0"` stops
the scan, so the valid `"30"` behind it is ignored. -/
theorem C8_period_scan_amended_witness :
    prunePeriodLoop defaultPeriodTagKey
        [⟨some defaultPeriodTagKey, some "0"⟩, ⟨some defaultPeriodTagKey, some "30"⟩]
        (0, false) =
      (0, false) :=
  (C8_period_scan_amended defaultPeriodTagKey ⟨some defaultPeriodTagKey, some "0"⟩
    [⟨some defaultPeriodTagKey, some "30"⟩] (0, false)).2.2.2.1 "0" rfl rfl (by decide)

/-- C10: the tag value 18446744073709551615 (the largest uint64) parses
successfully and converts to the signed period −1 with hasPolicy true; the
cutoff computed for reference time 0 is one day in the future (strictly later
than the reference time), and PruneRepo prunes every image in the repository
except the most recently pushed one. -/
theorem C10_uint64_wraparound_period :
    prunePeriodFromTags defaultPeriodTagKey [periodTag "18446744073709551615"] =
      (-1, true) ∧
    (0 : Int) < 0 - wrap64 (-1 * nsPerDay) ∧
    (pruneRepo dryZeroCfg hugePeriodReg "r" 0 []).1 = .ok ["u:b", "u:c"] := by
  refine ⟨by decide, by decide, by decide⟩

/-- C2, counterexample: with period 30 days and reference time 0, the image
`b` pushed at exactly −30 days (and not the most recent — `m` is) appears in
the pruned list, while the claim says an image pushed exactly at `T − P` days
is a survivor.  The survivor test of the code is strict (`pushedAt.After
cutoff`), so the exact boundary is eligible. -/
theorem C2_boundary_pruned_cex :
    (pruneRepo dryCfg (twoImageReg [periodTag "30"] (-(30 * nsPerDay)) 0) "r" 0
        ["x"]).1 = .ok ["u:b"] ∧
    "u:b" ∈
      ((pruneRepo dryCfg (twoImageReg [periodTag "30"] (-(30 * nsPerDay)) 0) "r" 0
          ["x"]).1).prunedList := by
  constructor <;> decide

/-- C2, amended: for any reference time `u` and any valid positive period `P`
(whose day duration does not overflow int64), an image pushed at exactly
`u − P` days is eligible and is pruned, while an image pushed one hour after
`u − P` days is a survivor and the pruned list is empty; a survivor is an
image pushed strictly after the cutoff. -/
theorem C2_cutoff_boundary_amended (u P : Int) (tags : List Tag)
    (hP : 0 < P) (hPsmall : P * nsPerDay < 2 ^ 63)
    (hTags : prunePeriodFromTags defaultPeriodTagKey tags = (P, true)) :
    (pruneRepo dryCfg (twoImageReg tags (u - P * nsPerDay) u) "r" u ["x"]).1 =
      .ok ["u:b"] ∧
    (pruneRepo dryCfg (twoImageReg tags (u - P * nsPerDay + nsPerHour) u) "r" u
        ["x"]).1 = .ok [] := by
  have hday : (0 : Int) < nsPerDay := nsPerDay_pos
  have hPday : (0 : Int) < P * nsPerDay := mul_pos hP hday
  have hhour : nsPerHour < P * nsPerDay := by
    have h1 : (1 : Int) ≤ P := hP
    have h2 : nsPerDay ≤ P * nsPerDay := le_mul_of_one_le_left (le_of_lt hday) h1
    have h3 : nsPerHour < nsPerDay := by norm_num [nsPerDay, nsPerHour]
    linarith
  have hwrap : wrap64 (P * nsPerDay) = P * nsPerDay :=
    wrap64_eq_self (by linarith) hPsmall
  have hper : prunePeriodFromTags dryCfg.periodTagKey tags = (P, true) := hTags
  have hper1 : (prunePeriodFromTags dryCfg.periodTagKey tags).1 = P := by
    rw [hper]
  have hper2 : (prunePeriodFromTags dryCfg.periodTagKey tags).2 = true := by
    rw [hper]
  constructor
  · have hmr1 : mostRecentFold
        [⟨some u, [some "m"]⟩, ⟨some (u - P * nsPerDay), [some "b"]⟩] none =
        .ok (some ⟨some u, [some "m"]⟩) := by
      have hlt : ¬ (u < u - P * nsPerDay) := by linarith
      simp [mostRecentFold, hlt]
    have hcls1 : classify (["x"] ++ ["u:m"]) oneRepo.uri
        (u - wrap64 ((prunePeriodFromTags dryCfg.periodTagKey tags).1 * nsPerDay))
        [⟨some u, [some "m"]⟩, ⟨some (u - P * nsPerDay), [some "b"]⟩] =
        .ok ["b"] := by
      rw [hper1, hwrap]
      have h1 : u - P * nsPerDay < u := by linarith
      have h2 : ¬ (u - P * nsPerDay < u - P * nsPerDay) := lt_irrefl _
      simp [classify, detailTags, oneRepo, h1, h2]
    rw [pruneRepo_dry_eval dryCfg (twoImageReg tags (u - P * nsPerDay) u) "r" u
      ["x"] oneRepo tags
      [⟨some u, [some "m"]⟩, ⟨some (u - P * nsPerDay), [some "b"]⟩]
      (some ⟨some u, [some "m"]⟩) ["u:m"] ["b"]
      rfl rfl rfl hper2 rfl hmr1 rfl hcls1 rfl]
    rfl
  · have hmr2 : mostRecentFold
        [⟨some u, [some "m"]⟩, ⟨some (u - P * nsPerDay + nsPerHour), [some "b"]⟩]
        none = .ok (some ⟨some u, [some "m"]⟩) := by
      have hlt : ¬ (u < u - P * nsPerDay + nsPerHour) := by linarith
      simp [mostRecentFold, hlt]
    have hcls2 : classify (["x"] ++ ["u:m"]) oneRepo.uri
        (u - wrap64 ((prunePeriodFromTags dryCfg.periodTagKey tags).1 * nsPerDay))
        [⟨some u, [some "m"]⟩, ⟨some (u - P * nsPerDay + nsPerHour), [some "b"]⟩] =
        .ok [] := by
      rw [hper1, hwrap]
      have h1 : u - P * nsPerDay < u := by linarith
      have h2 : u - P * nsPerDay < u - P * nsPerDay + nsPerHour := by
        have := nsPerHour_pos
        linarith
      simp [classify, h1, h2]
    rw [pruneRepo_dry_eval dryCfg
      (twoImageReg tags (u - P * nsPerDay + nsPerHour) u) "r" u ["x"] oneRepo tags
      [⟨some u, [some "m"]⟩, ⟨some (u - P * nsPerDay + nsPerHour), [some "b"]⟩]
      (some ⟨some u, [some "m"]⟩) ["u:m"] []
      rfl rfl rfl hper2 rfl hmr2 rfl hcls2 rfl]
    rfl

/-- Witness for C2's amended theorem at reference time 0 and period 30. -/
theorem C2_cutoff_boundary_amended_witness :
    (pruneRepo dryCfg (twoImageReg [periodTag "30"] (0 - 30 * nsPerDay) 0) "r" 0
        ["x"]).1 = .ok ["u:b"] ∧
    (pruneRepo dryCfg
        (twoImageReg [periodTag "30"] (0 - 30 * nsPerDay + nsPerHour) 0) "r" 0
        ["x"]).1 = .ok [] :=
  C2_cutoff_boundary_amended 0 30 [periodTag "30"] (by norm_num) (by decide)
    (by decide)

/-- C3, counterexample: the eligible detail carries tags `a` then `w`; the
reference `u:w` is whitelisted, yet `u:a` — another tag of the same detail,
placed before the whitelisted one — is pruned.  The whitelist short-circuit
only skips the tags after the match. -/
theorem C3_whitelist_position_cex :
    (pruneRepo dryCfg tagOrderReg "r" 0 ["u:w"]).1 = .ok ["u:a"] ∧
    "u:a" ∈ ((pruneRepo dryCfg tagOrderReg "r" 0 ["u:w"]).1).prunedList := by
  constructor <;> decide

/-- C3, amended: within one image detail's tag list, the whitelist
short-circuit suppresses exactly the tags from the first whitelisted tag
onwards; the eligible, non-whitelisted tags preceding it are still collected
as pruneable and are pruned. -/
theorem C3_whitelist_suffix_amended (wl : List String) (uri w : String)
    (pre : List String) (post : List (Option String))
    (hpre : ∀ s ∈ pre, (uri ++ ":" ++ s) ∉ wl)
    (hw : (uri ++ ":" ++ w) ∈ wl) :
    detailTags wl uri (pre.map some ++ some w :: post) = .ok pre := by
  induction pre with
  | nil => simp [detailTags, hw]
  | cons s rest ih =>
    have hs : (uri ++ ":" ++ s) ∉ wl := hpre s (by simp)
    have hrest : ∀ x ∈ rest, (uri ++ ":" ++ x) ∉ wl := fun x hx =>
      hpre x (by simp [hx])
    simp [detailTags, hs, ih hrest]

/-- Witness for C3's amended theorem: with `u:w` whitelisted, the per-detail
tag loop on tags `a`, `w` keeps `a` (pruned) and drops everything from `w`
on. -/
theorem C3_whitelist_suffix_amended_witness :
    detailTags ["u:w"] "u" (["a"].map some ++ some "w" :: []) = .ok ["a"] :=
  C3_whitelist_suffix_amended ["u:w"] "u" "w" ["a"] [] (by decide) (by decide)

/-- C7: with a nil push timestamp in the second position of the listing, the
most-recent tracking loop dereferences the nil pointer and PruneRepo crashes
instead of returning the data-integrity error; only when the nil-timestamp
detail is the one and only detail does the explicit error path run. -/
theorem C7_nil_pushed_at_crash :
    (pruneRepo dryCfg nilTimeSecondReg "r" 0 ["x"]).1 = .panic ∧
    (pruneRepo dryCfg nilTimeOnlyReg "r" 0 ["x"]).1 = .err [] .nilPushedAt := by
  constructor <;> decide

/-- References reported by `imageRefs` all come from the input tag list. -/
theorem imageRefs_mem_src (uri : String) :
    ∀ (l : List (Option String)) (rs : List String), imageRefs uri l = .ok rs →
      ∀ r ∈ rs, ∃ s, some s ∈ l ∧ r = uri ++ ":" ++ s := by
  intro l
  induction l with
  | nil =>
    intro rs h r hr
    simp [imageRefs] at h
    subst h
    simp at hr
  | cons a rest ih =>
    intro rs h r hr
    cases a with
    | none => simp [imageRefs] at h
    | some t =>
      cases hrec : imageRefs uri rest with
      | error e => simp [imageRefs, hrec] at h
      | ok rs0 =>
        simp only [imageRefs, hrec] at h
        cases h
        rcases List.mem_cons.mp hr with h1 | h1
        · exact ⟨t, by simp, h1⟩
        · rcases ih rs0 hrec r h1 with ⟨s, hs, he⟩
          exact ⟨s, by simp [hs], he⟩

/-- Every tag of the input contributes its reference to the `imageRefs`
result. -/
theorem imageRefs_mem_of (uri t : String) :
    ∀ (l : List (Option String)) (rs : List String), imageRefs uri l = .ok rs →
      some t ∈ l → (uri ++ ":" ++ t) ∈ rs := by
  intro l
  induction l with
  | nil =>
    intro rs _ hmem
    simp at hmem
  | cons a rest ih =>
    intro rs h hmem
    cases a with
    | none => simp [imageRefs] at h
    | some s =>
      cases hrec : imageRefs uri rest with
      | error e => simp [imageRefs, hrec] at h
      | ok rs0 =>
        simp only [imageRefs, hrec] at h
        cases h
        rcases List.mem_cons.mp hmem with h1 | h1
        · cases h1
          exact List.mem_cons_self _ _
        · exact List.mem_cons_of_mem _ (ih rs0 hrec h1)

/-- No tag collected by the per-detail loop has a whitelisted reference. -/
theorem detailTags_not_wl (wl : List String) (uri : String) :
    ∀ (l : List (Option String)) (ts : List String), detailTags wl uri l = .ok ts →
      ∀ s ∈ ts, (uri ++ ":" ++ s) ∉ wl := by
  intro l
  induction l with
  | nil =>
    intro ts h s hs
    simp [detailTags] at h
    subst h
    simp at hs
  | cons a rest ih =>
    intro ts h s hs
    cases a with
    | none => simp [detailTags] at h
    | some t =>
      by_cases hin : (uri ++ ":" ++ t) ∈ wl
      · simp [detailTags, hin] at h
        subst h
        simp at hs
      · cases hrec : detailTags wl uri rest with
        | error e => simp [detailTags, hin, hrec] at h
        | ok ts0 =>
          simp only [detailTags, if_neg hin, hrec] at h
          cases h
          rcases List.mem_cons.mp hs with h1 | h1
          · subst h1
            exact hin
          · exact ih ts0 hrec s h1

/-- No tag collected by the classification loop has a whitelisted
reference. -/
theorem classify_not_wl (wl : List String) (uri : String) (cutoff : Int) :
    ∀ (l : List ImageDetail) (ts : List String), classify wl uri cutoff l = .ok ts →
      ∀ s ∈ ts, (uri ++ ":" ++ s) ∉ wl := by
  intro l
  induction l with
  | nil =>
    intro ts h s hs
    simp [classify] at h
    subst h
    simp at hs
  | cons d rest ih =>
    intro ts h s hs
    cases hp : d.imagePushedAt with
    | none => simp [classify, hp] at h
    | some tp =>
      by_cases hcut : tp > cutoff
      · simp only [classify, hp, if_pos hcut] at h
        exact ih ts h s hs
      · cases hdt : detailTags wl uri d.imageTags with
        | error e => simp [classify, hp, if_neg hcut, hdt] at h
        | ok ts1 =>
          cases hrec : classify wl uri cutoff rest with
          | error e => simp [classify, hp, if_neg hcut, hdt, hrec] at h
          | ok ts2 =>
            simp only [classify, hp, if_neg hcut, hdt, hrec] at h
            cases h
            rcases List.mem_append.mp hs with h1 | h1
            · exact detailTags_not_wl wl uri d.imageTags ts1 hdt s h1
            · exact ih ts2 hrec s h1

/-- Invariant of the most-recent tracking: starting from an accumulator that
is either the strict maximum `D` itself or an already-seen detail strictly
older than `D` with `D` still ahead, the fold ends on `D`. -/
theorem mostRecentFold_unique (D : ImageDetail) (tD : Int)
    (hD : D.imagePushedAt = some tD) :
    ∀ (l : List ImageDetail) (m : ImageDetail),
      (∀ d ∈ l, d = D ∨ ∃ td, d.imagePushedAt = some td ∧ td < tD) →
      (m = D ∨ (D ∈ l ∧ ∃ tm, m.imagePushedAt = some tm ∧ tm < tD)) →
      mostRecentFold l (some m) = .ok (some D) := by
  intro l
  induction l with
  | nil =>
    intro m _ hm
    rcases hm with rfl | ⟨hmem, _⟩
    · rfl
    · simp at hmem
  | cons d rest ih =>
    intro m hall hm
    have hall' : ∀ x ∈ rest, x = D ∨ ∃ td, x.imagePushedAt = some td ∧ td < tD :=
      fun x hx => hall x (List.mem_cons_of_mem _ hx)
    rcases hm with rfl | ⟨hmem, tm, hmt, hmlt⟩
    · rcases hall d (List.mem_cons_self _ _) with rfl | ⟨td, hdt, hdlt⟩
      · simp only [mostRecentFold, hD]
        rw [if_neg (lt_irrefl tD)]
        exact ih _ hall' (Or.inl rfl)
      · simp only [mostRecentFold, hdt, hD]
        rw [if_neg (not_lt.mpr (le_of_lt hdlt))]
        exact ih _ hall' (Or.inl rfl)
    · rcases hall d (List.mem_cons_self _ _) with rfl | ⟨td, hdt, hdlt⟩
      · simp only [mostRecentFold, hD, hmt]
        rw [if_pos hmlt]
        exact ih _ hall' (Or.inl rfl)
      · by_cases hdD : d = D
        · subst hdD
          rw [hD] at hdt
          cases hdt
          exact absurd hdlt (lt_irrefl _)
        · have hDrest : D ∈ rest := by
            rcases List.mem_cons.mp hmem with h | h
            · exact absurd h.symm hdD
            · exact h
          simp only [mostRecentFold, hdt, hmt]
          by_cases hc : tm < td
          · rw [if_pos hc]
            exact ih d hall' (Or.inr ⟨hDrest, td, hdt, hdlt⟩)
          · rw [if_neg hc]
            exact ih m hall' (Or.inr ⟨hDrest, tm, hmt, hmlt⟩)

/-- With a unique strictly latest detail `D` in the listing, the most-recent
tracking selects `D`. -/
theorem mostRecentFold_eq (images : List ImageDetail) (D : ImageDetail) (tD : Int)
    (hD : D.imagePushedAt = some tD) (hmem : D ∈ images)
    (hmax : ∀ d ∈ images, d = D ∨ ∃ td, d.imagePushedAt = some td ∧ td < tD) :
    mostRecentFold images none = .ok (some D) := by
  cases images with
  | nil => simp at hmem
  | cons d rest =>
    have h0 : mostRecentFold (d :: rest) none = mostRecentFold rest (some d) := rfl
    rw [h0]
    have hall' : ∀ x ∈ rest, x = D ∨ ∃ td, x.imagePushedAt = some td ∧ td < tD :=
      fun x hx => hmax x (List.mem_cons_of_mem _ hx)
    rcases hmax d (List.mem_cons_self _ _) with rfl | ⟨td, hdt, hdlt⟩
    · exact mostRecentFold_unique d tD hD rest d hall' (Or.inl rfl)
    · refine mostRecentFold_unique D tD hD rest d hall' (Or.inr ⟨?_, td, hdt, hdlt⟩)
      rcases List.mem_cons.mp hmem with h | h
      · subst h
        rw [hD] at hdt
        cases hdt
        exact absurd hdlt (lt_irrefl _)
      · exact h

/-- Invariant of the deletion loop: if the registry's batch-delete only ever
reports ids drawn from the requested batch, then every reference in the loop's
result satisfies any property `P` holding for the references of the remaining
tags and for the accumulated references. -/
theorem batchLoopAux_prop (reg : Registry) (uri : String) (P : String → Prop)
    (hbd : ∀ i b out s, (reg.batchDelete i b).1 = some out → some s ∈ out → s ∈ b) :
    ∀ (fuel idx : Nat) (remaining acc : List String) (tr : List ApiCall),
      (∀ s ∈ remaining, P (uri ++ ":" ++ s)) →
      (∀ r ∈ acc, P r) →
      ∀ r ∈ ((batchLoopAux reg uri fuel idx remaining acc tr).1).prunedList, P r := by
  intro fuel
  induction fuel with
  | zero =>
    intro idx remaining acc tr _ hacc r hr
    cases remaining with
    | nil => exact hacc r (by simpa [batchLoopAux, Outcome.prunedList] using hr)
    | cons s rest0 => exact hacc r (by simpa [batchLoopAux, Outcome.prunedList] using hr)
  | succ fuel ih =>
    intro idx remaining acc tr hrem hacc r hr
    cases remaining with
    | nil => exact hacc r (by simpa [batchLoopAux, Outcome.prunedList] using hr)
    | cons s rest0 =>
      have hbatch : ∀ x ∈ (s :: rest0).take 100, P (uri ++ ":" ++ x) :=
        fun x hx => hrem x (List.take_subset _ _ hx)
      have hrest : ∀ x ∈ (s :: rest0).drop 100, P (uri ++ ":" ++ x) :=
        fun x hx => hrem x (List.drop_subset _ _ hx)
      cases hresp : (reg.batchDelete idx ((s :: rest0).take 100)).1 with
      | none =>
        simp only [batchLoopAux, hresp] at hr
        simp [Outcome.prunedList] at hr
      | some out =>
        have hout : ∀ x refs, imageRefs uri out = .ok refs → x ∈ refs → P x := by
          intro x refs hrefs hx
          rcases imageRefs_mem_src uri out refs hrefs x hx with ⟨y, hy, rfl⟩
          exact hbatch y (hbd idx _ out y hresp hy)
        cases hrefs : imageRefs uri out with
        | error e =>
          simp only [batchLoopAux, hresp, hrefs] at hr
          exact hacc r (by simpa [Outcome.prunedList] using hr)
        | ok refs =>
          have haccrefs : ∀ x ∈ acc ++ refs, P x := by
            intro x hx
            rcases List.mem_append.mp hx with h | h
            · exact hacc x h
            · exact hout x refs hrefs h
          cases hflag : (reg.batchDelete idx ((s :: rest0).take 100)).2 with
          | true =>
            simp only [batchLoopAux, hresp, hrefs, hflag] at hr
            exact haccrefs r (by simpa [Outcome.prunedList] using hr)
          | false =>
            simp only [batchLoopAux, hresp, hrefs, hflag] at hr
            exact ih (idx + 1) ((s :: rest0).drop 100) (acc ++ refs) _ hrest haccrefs r hr

/-- The deletion-loop entry point preserves the same invariant. -/
theorem batchLoop_prop (reg : Registry) (uri : String) (P : String → Prop)
    (hbd : ∀ i b out s, (reg.batchDelete i b).1 = some out → some s ∈ out → s ∈ b)
    (idx : Nat) (remaining acc : List String) (tr : List ApiCall)
    (hrem : ∀ s ∈ remaining, P (uri ++ ":" ++ s)) (hacc : ∀ r ∈ acc, P r) :
    ∀ r ∈ ((batchLoop reg uri idx remaining acc tr).1).prunedList, P r :=
  batchLoopAux_prop reg uri P hbd remaining.length idx remaining acc tr hrem hacc

/-- C1: in any repository listing containing a detail `D` whose push
timestamp is strictly later than that of every other detail (in particular in
a repository whose only image is `D`, however old), no image reference formed
from a tag of `D` ever appears in the list returned by PruneRepo — in dry-run
or remove mode, and also alongside any error — provided the registry's
batch-delete only reports ids taken from the requested batch. -/
theorem C1_most_recent_never_pruned (cfg : Config) (reg : Registry)
    (name : String) (untilT : Int) (excluded : List String) (repo : Repo)
    (images : List ImageDetail) (D : ImageDetail) (tD : Int) (t : String)
    (hbd : ∀ i b out s, (reg.batchDelete i b).1 = some out → some s ∈ out → s ∈ b)
    (hrepo : repoFromName reg name = .ok repo)
    (himgs : reg.imagesByName.lookup name = some images)
    (hDt : D.imagePushedAt = some tD)
    (hDmem : D ∈ images)
    (hmax : ∀ d ∈ images, d = D ∨ ∃ td, d.imagePushedAt = some td ∧ td < tD)
    (ht : some t ∈ D.imageTags) :
    (repo.uri ++ ":" ++ t) ∉
      ((pruneRepo cfg reg name untilT excluded).1).prunedList := by
  have hmr : mostRecentFold images none = .ok (some D) :=
    mostRecentFold_eq images D tD hDt hDmem hmax
  unfold pruneRepo
  split
  · simp [Outcome.prunedList]
  · simp only [hrepo]
    cases htags : reg.tagsByARN.lookup repo.arn with
    | none => simp [Outcome.prunedList]
    | some tags =>
      by_cases hpp : (prunePeriodFromTags cfg.periodTagKey tags).2 = true
      · simp only [hpp, himgs, hmr, not_true, Bool.not_eq_true, if_false]
        cases hrefs : mostRecentRefs repo.uri (some D) with
        | error e => simp [hrefs, Outcome.prunedList]
        | ok mrRefs =>
          have htwl : (repo.uri ++ ":" ++ t) ∈ excluded ++ mrRefs :=
            List.mem_append_right _
              (imageRefs_mem_of repo.uri t D.imageTags mrRefs hrefs ht)
          cases hcls : classify (excluded ++ mrRefs) repo.uri
              (untilT -
                wrap64 ((prunePeriodFromTags cfg.periodTagKey tags).1 * nsPerDay))
              images with
          | error e => simp [hrefs, hcls, Outcome.prunedList]
          | ok ts =>
            have hts : ∀ s ∈ ts, (repo.uri ++ ":" ++ s) ∉ excluded ++ mrRefs :=
              classify_not_wl _ _ _ images ts hcls
            by_cases hrm : cfg.removeImages = true
            · simp only [hrefs, hcls, hrm, if_true]
              intro hmem
              exact batchLoop_prop reg repo.uri (fun r => r ∉ excluded ++ mrRefs)
                hbd 0 ts [] _ hts (by simp) _ hmem htwl
            · simp only [hrefs, hcls, hrm, if_false, Outcome.prunedList]
              intro hmem
              rcases List.mem_map.mp (by simpa [Outcome.prunedList] using hmem) with
                ⟨s, hsmem, hseq⟩
              exact hts s hsmem (by rw [hseq]; exact htwl)
      · simp [hpp, Outcome.prunedList]

/-- Witness for C1 at a concrete repository in remove mode: the most recent
image's reference `u:m` is not pruned even though it is 40 days old. -/
theorem C1_most_recent_never_pruned_witness :
    (oneRepo.uri ++ ":" ++ "m") ∉
      ((pruneRepo removeCfg (twoImageReg [periodTag "30"] (-(40 * nsPerDay)) 0)
          "r" 0 ["x"]).1).prunedList :=
  C1_most_recent_never_pruned removeCfg
    (twoImageReg [periodTag "30"] (-(40 * nsPerDay)) 0) "r" 0 ["x"] oneRepo
    [⟨some 0, [some "m"]⟩, ⟨some (-(40 * nsPerDay)), [some "b"]⟩]
    ⟨some 0, [some "m"]⟩ 0 "m"
    (by
      intro i b out s h1 h2
      simp [twoImageReg, echoDelete] at h1
      subst h1
      simpa using h2)
    rfl rfl rfl (by simp)
    (by
      intro d hd
      simp at hd
      rcases hd with rfl | rfl
      · exact Or.inl rfl
      · exact Or.inr ⟨-(40 * nsPerDay), rfl, by norm_num [nsPerDay, nsPerHour]⟩)
    (by simp)

/-- C5, counterexample: the first repository prunes `u1:a1`; the second
repository's batch delete fails while still reporting `u2:b1` deleted, so
PruneAllRepos aborts — but the list it returns with the error is not the list
accumulated from earlier repositories (`["u1:a1"]`): it also contains the
failing repository's partial reference. -/
theorem C5_abort_partial_cex :
    pruneAllRepos removeCfg sweepAbortReg 0 ["x"] =
      .err ["u1:a1", "u2:b1"] .batchDelete ∧
    (pruneAllRepos removeCfg sweepAbortReg 0 ["x"]).prunedList ≠ ["u1:a1"] := by
  constructor <;> decide

set_option maxRecDepth 100000 in
/-- C6: with 250 eligible images and every call succeeding, PruneRepo issues
exactly three batch-delete calls of sizes 100, 100 and 50 (the partitioning
half of the claim holds).  But when the second batch-delete call fails
returning a nil output — the AWS SDK convention and what the package's own
test mock does on every error path — PruneRepo dereferences the nil output
before checking the error and crashes, instead of returning the 100
references from batch 1 together with the error; no third call is made. -/
theorem C6_batch_partition_and_crash :
    (pruneRepo removeZeroCfg manyOkReg "r" 0 []).2 =
      [.describeRepositories, .listTagsForResource, .describeImages,
       .batchDeleteImage 100, .batchDeleteImage 100, .batchDeleteImage 50] ∧
    (pruneRepo removeZeroCfg manyFailReg "r" 0 []).1 = .panic ∧
    (pruneRepo removeZeroCfg manyFailReg "r" 0 []).2 =
      [.describeRepositories, .listTagsForResource, .describeImages,
       .batchDeleteImage 100, .batchDeleteImage 100] := by
  refine ⟨by decide, by decide, by decide⟩

/-- C5, amended: one step of the PruneAllRepos repository loop.  The sentinel
outcome never aborts the sweep (the repository is skipped and the loop
continues with the rest), a successful repository contributes its references
and the loop continues, and any other error aborts the sweep returning the
references accumulated so far — including whatever partial references the
failing PruneRepo call itself returned — together with that error. -/
theorem C5_sweep_step_amended (cfg : Config) (reg : Registry) (untilT : Int)
    (excluded : List String) (r : Repo) (rest : List Repo) (acc : List String) :
    (∀ p, (pruneRepo cfg reg r.name untilT excluded).1 = .err p .noPrunePeriodTag →
      pruneAllLoop cfg reg untilT excluded (r :: rest) acc =
        pruneAllLoop cfg reg untilT excluded rest (acc ++ p)) ∧
    (∀ p, (pruneRepo cfg reg r.name untilT excluded).1 = .ok p →
      pruneAllLoop cfg reg untilT excluded (r :: rest) acc =
        pruneAllLoop cfg reg untilT excluded rest (acc ++ p)) ∧
    (∀ p e, (pruneRepo cfg reg r.name untilT excluded).1 = .err p e →
      e ≠ .noPrunePeriodTag →
      pruneAllLoop cfg reg untilT excluded (r :: rest) acc = .err (acc ++ p) e) := by
  refine ⟨?_, ?_, ?_⟩
  · intro p h
    simp [pruneAllLoop, h]
  · intro p h
    simp [pruneAllLoop, h]
  · intro p e h hne
    simp [pruneAllLoop, h, hne]

/-- Witness for C5's amended theorem, at the sweep-abort scenario: starting
the loop at the second (failing) repository with `u1:a1` already accumulated
returns the accumulated reference, the failing repository's partial reference
and the batch-delete error. -/
theorem C5_sweep_step_amended_witness :
    pruneAllLoop removeCfg sweepAbortReg 0 ["x"] [⟨"arn2", "r2", "u2"⟩] ["u1:a1"] =
      .err ["u1:a1", "u2:b1"] .batchDelete :=
  (C5_sweep_step_amended removeCfg sweepAbortReg 0 ["x"] ⟨"arn2", "r2", "u2"⟩ []
    ["u1:a1"]).2.2 ["u2:b1"] .batchDelete (by decide) (by decide)

/-- Membership after inserting into the sorted accumulator. -/
theorem mem_insertImage (x a : String) :
    ∀ l : List String, a ∈ insertImage x l ↔ a = x ∨ a ∈ l := by
  intro l
  induction l with
  | nil => simp [insertImage]
  | cons y ys ih =>
    by_cases hxy : x = y
    · subst hxy
      simp only [insertImage, if_pos rfl]
      simp [List.mem_cons]
    · by_cases hlt : x < y
      · simp only [insertImage, if_neg hxy, if_pos hlt]
        simp [List.mem_cons]
      · simp only [insertImage, if_neg hxy, if_neg hlt]
        simp only [List.mem_cons, ih]
        tauto

/-- Insertion preserves strict sortedness. -/
theorem pairwise_insertImage (x : String) :
    ∀ l : List String, l.Pairwise (· < ·) → (insertImage x l).Pairwise (· < ·) := by
  intro l
  induction l with
  | nil => intro _; simp [insertImage]
  | cons y ys ih =>
    intro hp
    rcases List.pairwise_cons.mp hp with ⟨hy, hys⟩
    by_cases hxy : x = y
    · simpa [insertImage, hxy] using hp
    · by_cases hlt : x < y
      · simp only [insertImage, if_neg hxy, if_pos hlt]
        refine List.pairwise_cons.mpr ⟨?_, hp⟩
        intro b hb
        rcases List.mem_cons.mp hb with rfl | hb2
        · exact hlt
        · exact lt_trans hlt (hy b hb2)
      · have hyx : y < x := by
          rcases lt_trichotomy x y with h | h | h
          · exact absurd h hlt
          · exact absurd h hxy
          · exact h
        simp only [insertImage, if_neg hxy, if_neg hlt]
        refine List.pairwise_cons.mpr ⟨?_, ih hys⟩
        intro b hb
        rcases (mem_insertImage x b ys).mp hb with rfl | hb2
        · exact hyx
        · exact hy b hb2

/-- Folding insertions preserves strict sortedness. -/
theorem foldl_insert_pairwise :
    ∀ (l acc : List String), acc.Pairwise (· < ·) →
      (l.foldl (fun a i => insertImage i a) acc).Pairwise (· < ·) := by
  intro l
  induction l with
  | nil => intro acc h; simpa using h
  | cons i rest ih => intro acc h; exact ih _ (pairwise_insertImage i acc h)

/-- Membership in the folded insertions is membership in the accumulator or in
the input. -/
theorem foldl_insert_mem :
    ∀ (l acc : List String) (r : String),
      r ∈ l.foldl (fun a i => insertImage i a) acc ↔ r ∈ acc ∨ r ∈ l := by
  intro l
  induction l with
  | nil => simp
  | cons i rest ih =>
    intro acc r
    simp only [List.foldl_cons, ih, mem_insertImage, List.mem_cons]
    tauto

/-- C9: the survey returns a strictly ascending (hence deduplicated) sequence
whose members are exactly the container and init-container image references of
the surveyed workloads; it is a permutation of the deduplicated image list, so
no workloads yield the empty sequence, N workloads with N distinct images
yield N references, and a shared image is reported once. -/
theorem C9_survey_sorted_dedup (specs : List PodSpec) :
    (surveyDeployedImages specs).Pairwise (· < ·) ∧
    (∀ r, r ∈ surveyDeployedImages specs ↔ r ∈ allImages specs) ∧
    List.Perm (surveyDeployedImages specs) (allImages specs).dedup := by
  have hp : (surveyDeployedImages specs).Pairwise (· < ·) :=
    foldl_insert_pairwise (allImages specs) [] (by simp)
  have hm : ∀ r, r ∈ surveyDeployedImages specs ↔ r ∈ allImages specs := by
    intro r
    unfold surveyDeployedImages
    rw [foldl_insert_mem]
    simp
  refine ⟨hp, hm, ?_⟩
  rw [List.perm_ext_iff_of_nodup hp.nodup (List.nodup_dedup _)]
  intro a
  rw [hm a, List.mem_dedup]

end Thermite
